import Mathlib

/-!
Verification development for the repair-log parsing bot (`main.py`).

The Python source is shallowly embedded here:

* strings are `String`/`List Char`, Python's `str.strip`, `str.split`,
  `in` (substring test), `str.startswith`, `int(...)`, `float(...)` and
  `datetime.strptime('%H:%M:%S')` are modelled by executable Lean
  functions on character lists;
* raising code is modelled with `Except`; Python's `int | float` values
  are modelled by `PyNum` (floats carried as exact rationals, since no
  verified property depends on binary-float rounding);
* the Discord send loop (`parse_summary` / `parse_json`), which has no
  a-priori termination bound in the source, is modelled with an explicit
  fuel argument counting outer-loop iterations: divergence of the Python
  loop corresponds to the model returning `none` for every fuel.
-/

set_option autoImplicit false

namespace RepairBot

/-! ## Python string primitives -/

/-- Model of Python `str.strip()`: drop whitespace from both ends. -/
def pyStrip (s : List Char) : List Char :=
  ((s.dropWhile Char.isWhitespace).reverse.dropWhile Char.isWhitespace).reverse

/-- Model of Python `needle in hay` (substring containment). -/
def containsSub (needle : List Char) : List Char → Bool
  | [] => needle.isEmpty
  | c :: rest => needle.isPrefixOf (c :: rest) || containsSub needle rest

/-- Fuel-driven worker for the Python `str.split` model; the fuel is a
bound on the string length, so the zero-fuel row is unreachable from
`pySplit` (structural recursion on the fuel keeps the function
kernel-reducible). -/
def pySplitF (sep : List Char) : Nat → List Char → List (List Char)
  | _, [] => [[]]
  | 0, s => [s]
  | fuel + 1, c :: rest =>
    if 0 < sep.length ∧ sep.isPrefixOf (c :: rest) then
      [] :: pySplitF sep fuel (List.drop (sep.length - 1) rest)
    else
      let ps := pySplitF sep fuel rest
      (c :: ps.headD []) :: ps.tail

/-- Model of Python `hay.split(sep)` for a separator, on character lists:
splits at each non-overlapping occurrence of `sep`, scanning left to right.
(The source never calls `split` with an empty separator; for an empty
separator this model returns the whole string as a single part.) -/
def pySplit (sep s : List Char) : List (List Char) :=
  pySplitF sep s.length s

/-- Fuel-driven worker for `countOccs` (same shape as `pySplitF`). -/
def countOccsF (sep : List Char) : Nat → List Char → Nat
  | _, [] => 0
  | 0, _ => 0
  | fuel + 1, c :: rest =>
    if 0 < sep.length ∧ sep.isPrefixOf (c :: rest) then
      1 + countOccsF sep fuel (List.drop (sep.length - 1) rest)
    else countOccsF sep fuel rest

/-- Number of non-overlapping occurrences of `sep`, scanning left to right
(the occurrences at which `pySplit` cuts). -/
def countOccs (sep s : List Char) : Nat :=
  countOccsF sep s.length s

/-- Interleave a separator between parts (left inverse of `pySplit`). -/
def joinSep (sep : List Char) : List (List Char) → List Char
  | [] => []
  | [p] => p
  | p :: q :: ps => p ++ sep ++ joinSep sep (q :: ps)

/-- Digits-only decimal reading (no sign), used by the `int`/`float` models. -/
def parseDigits (ds : List Char) : Option Nat :=
  if ds ≠ [] ∧ ds.all Char.isDigit then
    some (ds.foldl (fun n c => n * 10 + (c.toNat - 48)) 0)
  else none

/-- Model of Python `int(s)`: optional surrounding whitespace, optional
sign, then decimal digits (digit-group underscores are not modelled —
the logs never contain them). -/
def parsePyInt (s : List Char) : Option Int :=
  match pyStrip s with
  | '-' :: ds => (parseDigits ds).map (fun n => -(n : Int))
  | '+' :: ds => (parseDigits ds).map (fun n => (n : Int))
  | ds => (parseDigits ds).map (fun n => (n : Int))

/-- Model of Python `float(s)` restricted to plain decimal literals
`[sign] digits [. digits]` / `[sign] . digits`, returned as an exact
rational (exponents, `inf`/`nan` and binary-float rounding are not
modelled — no verified property depends on them). -/
def parsePyFloatCore (ds : List Char) : Option Rat :=
  match ds.splitOn '.' with
  | [intPart] => (parseDigits intPart).map (fun n => (n : Rat))
  | [intPart, fracPart] =>
    if intPart = [] then
      (parseDigits fracPart).map (fun f => (f : Rat) / ((10 : Rat) ^ fracPart.length))
    else if fracPart = [] then
      (parseDigits intPart).map (fun n => (n : Rat))
    else
      match parseDigits intPart, parseDigits fracPart with
      | some n, some f => some ((n : Rat) + (f : Rat) / ((10 : Rat) ^ fracPart.length))
      | _, _ => none
  | _ => none

/-- Model of Python `float(s)` (see `parsePyFloatCore`). -/
def parsePyFloat (s : List Char) : Option Rat :=
  match pyStrip s with
  | '-' :: ds => (parsePyFloatCore ds).map (fun q => -q)
  | '+' :: ds => parsePyFloatCore ds
  | ds => parsePyFloatCore ds

/-! ## Error model

`SplitError` mirrors the Python class of the same name; other exceptions
the source can raise (`ValueError` from `int`/`float`/`strptime`,
`IndexError` from list indexing) are collected in `PyErr`.
`PricingError` mirrors the Python class, carrying the missing material
named by its message `f"{material} is not in the prices dictionary"`. -/

/-- Error raised by the line splitters; `tooFew` for fewer than two parts,
`tooMany` for more than two parts (both carry the offending text and the
separator, as the Python messages do). -/
inductive SplitError where
  | tooFew (s sep : String)
  | tooMany (s sep : String)
  deriving DecidableEq

/-- Any exception the decoding pipeline can raise. -/
inductive PyErr where
  | split (e : SplitError)
  | valueError (s : String)
  | indexError
  deriving DecidableEq

/-- Error raised by `Repair.total_cost`, naming the missing material. -/
structure PricingError where
  material : String
  deriving DecidableEq

/-- Python `int | float` values: `int` results stay integers, `float`
results are carried as exact rationals. -/
inductive PyNum where
  | i (v : Int)
  | f (v : Rat)
  deriving DecidableEq

/-- Python `num + n` for `num : int | float` and integer `n`
(`int + int` is an `int`, `float + int` a `float`). -/
def PyNum.addInt : PyNum → Int → PyNum
  | .i v, n => .i (v + n)
  | .f v, n => .f (v + n)

/-- `datetime.time` as produced by `strptime('%H:%M:%S').time()`. -/
structure PyTime where
  hour : Nat
  minute : Nat
  second : Nat
  deriving DecidableEq

/-! ## Line decoders (`Repair.__split_*` static methods) -/

/-- `Repair.__split_chat_line` with an explicit separator: strip the line,
split on the separator, demand exactly two parts, return the second. -/
def split_chat_line_at (sep : String) (s : String) : Except SplitError String :=
  let t := pyStrip s.data
  let parts := pySplit sep.data t
  if parts.length < 2 then .error (.tooFew (String.mk t) sep)
  else if 2 < parts.length then .error (.tooMany (String.mk t) sep)
  else .ok (String.mk (parts.getD 1 []))

/-- `Repair.__split_chat_line` at its default separator `'[CHAT] '`. -/
def split_chat_line (s : String) : Except SplitError String :=
  split_chat_line_at "[CHAT] " s

/-- CPython `datetime.strptime(ts, '%H:%M:%S')`: three colon-separated
fields of one or two digits each, whole string consumed, with the
`datetime` range checks. -/
def strptime_hms (ts : List Char) : Option PyTime :=
  let two : List Char → Option Nat := fun cs =>
    match cs with
    | [a] => if a.isDigit then some (a.toNat - 48) else none
    | [a, b] => if a.isDigit ∧ b.isDigit then some (10 * (a.toNat - 48) + (b.toNat - 48)) else none
    | _ => none
  match pySplit [':'] ts with
  | [hcs, mcs, scs] =>
    match two hcs, two mcs, two scs with
    | some h, some m, some s =>
      if h ≤ 23 ∧ m ≤ 59 ∧ s ≤ 59 then some ⟨h, m, s⟩ else none
    | _, _, _ => none
  | _ => none

/-- `Repair.__split_start_line`: take the part of the line before the
first `'] '`, drop its leading `'['`, parse it as `%H:%M:%S`. -/
def split_start_line (s : String) : Except PyErr PyTime :=
  let first := (pySplit "] ".data s.data).headD []
  let ts := first.drop 1
  match strptime_hms ts with
  | some t => .ok t
  | none => .error (.valueError (String.mk ts))

/-- `Repair.__split_number_line`: split on `': '` into exactly two parts,
then `int(...)` with a `float(...)` fallback on the second. -/
def split_number_line (s : String) : Except PyErr PyNum :=
  let parts := pySplit ": ".data s.data
  if parts.length < 2 then .error (.split (.tooFew s ": "))
  else if 2 < parts.length then .error (.split (.tooMany s ": "))
  else
    let v := parts.getD 1 []
    match parsePyInt v with
    | some n => .ok (.i n)
    | none =>
      match parsePyFloat v with
      | some q => .ok (.f q)
      | none => .error (.valueError (String.mk v))

/-- `Repair.__split_material_line`: split on `' : '` into exactly two
parts, the first is the material name, the second must be an `int`. -/
def split_material_line (s : String) : Except PyErr (String × Int) :=
  let parts := pySplit " : ".data s.data
  if parts.length < 2 then .error (.split (.tooFew s " : "))
  else if 2 < parts.length then .error (.split (.tooMany s " : "))
  else
    match parsePyInt (parts.getD 1 []) with
    | some n => .ok (String.mk (parts.getD 0 []), n)
    | none => .error (.valueError (String.mk (parts.getD 1 [])))

/-! ## Python dict and list primitives used by the decoder -/

/-- Python `d[k] = v` on an insertion-ordered dict modelled as an
association list: an existing key keeps its position and gets the new
value, a new key is appended. -/
def dictInsert (d : List (String × Int)) (k : String) (v : Int) : List (String × Int) :=
  if d.any (fun kv => kv.1 == k) then
    d.map (fun kv => if kv.1 == k then (k, v) else kv)
  else d ++ [(k, v)]

/-- Python `d[k]` / `k in d` on the association-list dict: the value at
the first (hence, by construction, only) entry with key `k`. -/
def lookupAssoc (k : String) : List (String × Int) → Option Int
  | [] => none
  | kv :: rest => if kv.1 == k then some kv.2 else lookupAssoc k rest

/-- Python `lines[i]`: non-negative indices from the front, negative
indices from the back, `IndexError` outside `[-len, len)`. -/
def pyGet (lines : List String) (i : Int) : Except PyErr String :=
  if 0 ≤ i ∧ i < lines.length then .ok (lines.getD i.toNat "")
  else if i < 0 ∧ 0 ≤ i + lines.length then .ok (lines.getD (i + lines.length).toNat "")
  else .error .indexError

/-- Python `range(lo, hi)` over integers. -/
def intRange (lo hi : Int) : List Int :=
  (List.range (hi - lo).toNat).map (fun k : Nat => lo + (k : Int))

/-! ## The Repair record and its decoder (`Repair.parse`) -/

/-- The `Repair` dataclass. -/
structure Repair where
  start_time : PyTime
  block_count : PyNum
  percent_damaged : PyNum
  materials : List (String × Int)
  time_delay : PyNum
  cost : PyNum
  started : Bool
  deriving DecidableEq

/-- A default record, used only as the out-of-range placeholder of `getD`. -/
def defaultRepair : Repair :=
  ⟨⟨0, 0, 0⟩, .i 0, .i 0, [], .i 0, .i 0, false⟩

/-- The marker `split_chat_line` payload a "started" line begins with. -/
def startedMarker : String := "Repairs underway: 0/"

/-- One iteration of the `Attempt to find starting` loop in
`Repair.parse`: index the line, try to chat-split it (`except
SplitError: continue`), test the marker; first hit stops with `true`,
an exhausted index list gives `false`. -/
def findStartedGo (lines : List String) : List Int → Except PyErr Bool
  | [] => .ok false
  | j :: rest => do
    let line ← pyGet lines j
    match split_chat_line line with
    | .error _ => findStartedGo lines rest
    | .ok payload =>
      if startedMarker.data.isPrefixOf payload.data then .ok true
      else findStartedGo lines rest

/-- The `Attempt to find starting` scan of `Repair.parse`: a bounded
forward scan over `range(cost_index + 1, min(cost_index + 100, len(lines)))`. -/
def findStarted (lines : List String) (cost_index : Int) : Except PyErr Bool :=
  findStartedGo lines (intRange (cost_index + 1) (min (cost_index + 100) (lines.length : Int)))

/-- The material-run decode of `Repair.parse`: for each index in
`range(start_index + 3, end_index - 2)`, index the line, chat-split it,
material-split the payload.  (The source interleaves the dict insertions
with the decoding; decoding each line first and folding the insertions
afterwards — `buildMaterials` below — visits lines and keys in the same
order and fails on the same first bad line.) -/
def decode_materials (lines : List String) (start_index end_index : Int) :
    Except PyErr (List (String × Int)) :=
  (intRange (start_index + 3) (end_index - 2)).mapM (fun idx => do
    let l ← pyGet lines idx
    let payload ← (split_chat_line l).mapError PyErr.split
    split_material_line payload)

/-- The dict built by `materials[line[0]] = line[1]` over the decoded
material pairs, in order. -/
def buildMaterials (pairs : List (String × Int)) : List (String × Int) :=
  pairs.foldl (fun d p => dictInsert d p.1 p.2) []

/-- `Repair.parse(lines, start_index, end_index)`. -/
def Repair.parse (lines : List String) (start_index end_index : Int) : Except PyErr Repair := do
  let damaged_index := start_index
  let percentage_index := start_index + 1
  let delay_index := end_index - 1
  let cost_index := end_index
  let startLine ← pyGet lines start_index
  let start_time ← split_start_line startLine
  let bcLine ← pyGet lines damaged_index
  let bcPayload ← (split_chat_line bcLine).mapError PyErr.split
  let block_count ← split_number_line bcPayload
  let pcLine ← pyGet lines percentage_index
  let pcPayload ← (split_chat_line pcLine).mapError PyErr.split
  let percent_damaged ← split_number_line pcPayload
  let matPairs ← decode_materials lines start_index end_index
  let materials := buildMaterials matPairs
  let dlLine ← pyGet lines delay_index
  let dlPayload ← (split_chat_line dlLine).mapError PyErr.split
  let time_delay ← split_number_line dlPayload
  let csLine ← pyGet lines cost_index
  let csPayload ← (split_chat_line csLine).mapError PyErr.split
  let cost ← split_number_line csPayload
  let started ← findStarted lines cost_index
  pure ⟨start_time, block_count, percent_damaged, materials, time_delay, cost, started⟩

/-! ## Boundary scanner and `parse_file` -/

/-- The event-open marker of the boundary scanner. -/
def openMarker : String := "Total damaged blocks: "

/-- The event-close marker of the boundary scanner. -/
def closeMarker : String := "Money to complete repair: "

/-- The boundary-scanner loop of `parse_file`: `start` is the pending
start (sentinel `-1`), `i` the current line index.  A line containing
the open marker overwrites `start` (the `elif` gives the open branch
priority); otherwise a line containing the close marker emits
`(start, i)` when `start != -1`, never clearing `start`. -/
def boundaryScan : List String → Int → Int → List (Int × Int)
  | [], _, _ => []
  | line :: rest, start, i =>
    if containsSub openMarker.data line.data then
      boundaryScan rest i (i + 1)
    else if containsSub closeMarker.data line.data then
      (if start ≠ -1 then [(start, i)] else []) ++ boundaryScan rest start (i + 1)
    else
      boundaryScan rest start (i + 1)

/-- The `repair_bounds` list computed by `parse_file`. -/
def parse_file_bounds (log_lines : List String) : List (Int × Int) :=
  boundaryScan log_lines (-1) 0

/-- `parse_file` after the file has been read and split into lines
(file access and gzip decoding are external collaborators): decode one
`Repair` per boundary pair, aborting on the first decode failure. -/
def parse_file (log_lines : List String) : Except PyErr (List Repair) :=
  (parse_file_bounds log_lines).mapM (fun b => Repair.parse log_lines b.1 b.2)

/-! ## Cost calculator (`Repair.total_cost`) -/

/-- The loop of `Repair.total_cost`: walk the materials in insertion
order, failing on the first one missing from `prices`, otherwise adding
`amount * prices[material]` to the running total. -/
def total_cost_go (prices : String → Option Int) :
    List (String × Int) → PyNum → Except PricingError PyNum
  | [], total => .ok total
  | (m, amount) :: rest, total =>
    match prices m with
    | none => .error ⟨m⟩
    | some p => total_cost_go prices rest (total.addInt (amount * p))

/-- `Repair.total_cost(prices)`; the price table is the read-only dict
`material_costs`, modelled as a lookup function. -/
def Repair.total_cost (r : Repair) (prices : String → Option Int) : Except PricingError PyNum :=
  total_cost_go prices r.materials r.cost

/-! ## Result formatting (`parse_summary` body and `__format_delay`)

The f-string number formats are modelled executably: `{n:,}` and
`{n:,.0f}`/`{n:,.2f}` on integers are rendered exactly (decimal digits
with thousands separators); on Python floats the binary-float repr and
rounding nuances are elided (rationals are rendered through their floor
or exact decimal rounding) — no verified claim depends on float
rendering, only on which pieces are appended to which line. -/

/-- Two-digit zero padding. -/
def pad2 (n : Nat) : String :=
  if n < 10 then "0" ++ toString n else toString n

/-- `str(datetime.time)`: `HH:MM:SS`. -/
def fmtTime (t : PyTime) : String :=
  pad2 t.hour ++ ":" ++ pad2 t.minute ++ ":" ++ pad2 t.second

/-- Insert `','` after every third character of a reversed digit list. -/
def groupRevDigits (ds : List Char) : List Char :=
  if ds.length ≤ 3 then ds
  else ds.take 3 ++ ',' :: groupRevDigits (ds.drop 3)
termination_by ds.length
decreasing_by simp only [List.length_drop]; omega

/-- `f"{n:,}"` for an integer: decimal digits with thousands separators. -/
def fmtCommaInt (n : Int) : String :=
  let digits := (toString n.natAbs).data
  (if n < 0 then "-" else "") ++ String.mk (groupRevDigits digits.reverse).reverse

/-- `f"{v:,}"` for an `int | float` value (float rendering approximated). -/
def fmtCommaNum : PyNum → String
  | .i n => fmtCommaInt n
  | .f q => fmtCommaInt ⌊q⌋ ++ ".0"

/-- `f"{v:,.2f}"`: currency rendering with two decimals. -/
def fmtMoney : PyNum → String
  | .i n => fmtCommaInt n ++ ".00"
  | .f q =>
    let cents := ⌊q * 100 + 1 / 2⌋
    (if cents < 0 then "-" else "") ++
      fmtCommaInt ((cents.natAbs / 100 : Nat) : Int) ++ "." ++ pad2 (cents.natAbs % 100)

/-- `__format_delay` on an integer delay: Python `//` and `%` are floor
division and floor modulus (`Int.fdiv`/`Int.fmod`). -/
def format_delay_int (delay : Int) : String :=
  let seconds := delay.fmod 60
  let minutes0 := delay.fdiv 60
  let hours0 := minutes0.fdiv 60
  let minutes := minutes0.fmod 60
  let days := hours0.fdiv 24
  let hours := hours0.fmod 24
  (if 0 < days then fmtCommaInt days ++ "d " else "") ++
  (if 0 < hours then fmtCommaInt hours ++ "h " else "") ++
  (if 0 < minutes then fmtCommaInt minutes ++ "m " else "") ++
  (if 0 < seconds then fmtCommaInt seconds ++ "s " else "") ++
  "(" ++ fmtCommaInt delay ++ "s)"

/-- `__format_delay` on an `int | float` delay (a float delay, which no
well-formed log produces, is collapsed to its floor). -/
def format_delay : PyNum → String
  | .i d => format_delay_int d
  | .f q => format_delay_int ⌊q⌋

/-- The fixed head of a summary line:
`f"> {repair.start_time}: {repair.block_count:,} Blocks"`. -/
def repair_line_head (r : Repair) : String :=
  "> " ++ fmtTime r.start_time ++ ": " ++ fmtCommaNum r.block_count ++ " Blocks"

/-- One iteration of the summarizing loop of `parse_summary`: the cost,
delay and started suffixes are appended only if `total_cost` succeeds
(the `PricingError` is raised before anything is appended); a pricing
failure appends the inline error message instead. -/
def render_repair_line (r : Repair) (prices : String → Option Int) : String :=
  match r.total_cost prices with
  | .ok total =>
    let s := repair_line_head r ++ ", $" ++ fmtMoney total ++ " & " ++ format_delay r.time_delay
    if r.started then s ++ " - Started for $" ++ fmtMoney r.cost else s
  | .error e =>
    repair_line_head r ++ " & Error pricing: " ++ e.material ++ " is not in the prices dictionary"

/-- The first line appended to `results`:
`f"{len(repairs)} repair{'' if len(repairs) == 1 else 's'} found"`. -/
def summary_header (n : Nat) : String :=
  toString n ++ " repair" ++ (if n = 1 then "" else "s") ++ " found"

/-- The summarizing loop of `parse_summary`, appending one rendered line
per repair to the `results` deque. -/
def summary_lines_loop (prices : String → Option Int) :
    List Repair → List String → List String
  | [], acc => acc
  | r :: rest, acc => summary_lines_loop prices rest (acc ++ [render_repair_line r prices])

/-- The full `results` deque built by `parse_summary`: the header line
followed by one line per repair. -/
def parse_summary_results (repairs : List Repair) (prices : String → Option Int) : List String :=
  summary_lines_loop prices repairs [summary_header repairs.length]

/-! ## The chunked send loop (`Send results` in `parse_summary` / `parse_json`)

```
while len(results) > 0:
    message = ''
    while len(message) < 2000 and len(results) > 0 and len(message) + len(results[0]) < 2000:
        message += f"{results.popleft()}\n"
    await interaction.followup.send(message, ephemeral=True)
```

The inner loop is `sendInner` (also returning the list of items it
consumed, for stating order preservation); the outer loop is `sendLoop`
with an explicit fuel counting its iterations — the Python loop has no
built-in bound, and an outer iteration that consumes nothing repeats
forever, which the model renders as `none` for every fuel. -/

/-- The message-size limit of the send loop. -/
def chunkLimit : Nat := 2000

/-- The inner accumulation loop: returns the finished message, the items
consumed into it (in order), and the remaining items. -/
def sendInner (message : String) : List String → String × List String × List String
  | [] => (message, [], [])
  | r :: rs =>
    if message.length < chunkLimit ∧ message.length + r.length < chunkLimit then
      let res := sendInner (message ++ r ++ "\n") rs
      (res.1, r :: res.2.1, res.2.2)
    else (message, [], r :: rs)

/-- The outer send loop: each iteration starts a fresh empty message,
runs the inner loop, and emits the resulting chunk.  `none` means the
fuel ran out before the queue emptied; the Python loop diverges exactly
when this happens for every fuel. -/
def sendLoop : Nat → List String → Option (List (String × List String))
  | _, [] => some []
  | 0, _ :: _ => none
  | fuel + 1, r :: rs =>
    let step := sendInner "" (r :: rs)
    (sendLoop fuel step.2.2).map (fun chunks => (step.1, step.2.1) :: chunks)

/-- The Python send loop runs forever on this queue: no number of outer
iterations empties it. -/
def rendererDiverges (results : List String) : Prop :=
  ∀ fuel, sendLoop fuel results = none

/-- Whether one iteration of the started-scan hits the marker on a line:
the line chat-splits and its payload starts with `startedMarker`. -/
def scan_line_hit (line : String) : Bool :=
  match split_chat_line line with
  | .ok payload => startedMarker.data.isPrefixOf payload.data
  | .error _ => false

/-! ## Concrete fixtures used by the witness and counterexample theorems -/

/-- Price table `{Wood: 2, Stone: 4}`. -/
def wPricesFull : String → Option Int :=
  fun s => if s = "Wood" then some 2 else if s = "Stone" then some 4 else none

/-- Price table `{Wood: 2}` (missing `Stone`). -/
def wPricesWoodOnly : String → Option Int :=
  fun s => if s = "Wood" then some 2 else none

/-- Repair with materials `Wood:5, Stone:3` and flat cost `50`. -/
def wCostRepair : Repair :=
  ⟨⟨12, 0, 0⟩, .i 100, .i 5, [("Wood", 5), ("Stone", 3)], .i 120, .i 50, false⟩

/-- Repair whose only material `Wood:5` is priced by both tables. -/
def wOkRepair : Repair :=
  ⟨⟨12, 0, 0⟩, .i 100, .i 5, [("Wood", 5)], .i 120, .i 50, false⟩

/-- A batch with one priceable and one pricing-failing repair. -/
def wSumRepairs : List Repair := [wOkRepair, wCostRepair]

/-- Two log lines whose second chat-splits into a started marker. -/
def wScanLines : List String := ["x", "[12:00:00] [CHAT] Repairs underway: 0/5"]

/-- A minimal log with one open line and one close line. -/
def wBoundLines : List String :=
  ["Total damaged blocks: 1", "Money to complete repair: 2"]

/-- A full nine-line repair event whose material run names `Wood` twice. -/
def wDupLines : List String :=
  [ "[12:34:56] [CHAT] Total damaged blocks: 100"
  , "[12:34:56] [CHAT] Percent damaged: 5"
  , "[12:34:56] [CHAT] Needed materials:"
  , "[12:34:56] [CHAT] Wood : 5"
  , "[12:34:56] [CHAT] Wood : 7"
  , "[12:34:56] [CHAT] Stone : 3"
  , "gap line"
  , "[12:34:56] [CHAT] Repair delay: 120"
  , "[12:34:56] [CHAT] Money to complete repair: 50" ]

/-- The record `Repair.parse` decodes from `wDupLines` at bounds `(0, 8)`. -/
def wDupRepair : Repair :=
  ⟨⟨12, 34, 56⟩, .i 100, .i 5, [("Wood", 7), ("Stone", 3)], .i 120, .i 50, false⟩

/-- The raw decoded material pairs of `wDupLines`, before dict insertion. -/
def wDupPairs : List (String × Int) := [("Wood", 5), ("Wood", 7), ("Stone", 3)]

/-- A line containing both the open and the close marker. -/
def dualMarkerLine : String := "x Total damaged blocks: 2 y Money to complete repair: 3"

/-- A single queue item of length exactly `chunkLimit`. -/
def oversizedItemA : String := String.mk (List.replicate 2000 'a')

/-- A second such item (for a distinct counterexample input). -/
def oversizedItemB : String := String.mk (List.replicate 2000 'b')

/-! ## Helper lemmas -/

theorem PyNum.addInt_addInt (t : PyNum) (a b : Int) :
    (t.addInt a).addInt b = t.addInt (a + b) := by
  cases t <;> simp [PyNum.addInt] <;> ring

theorem except_bind_ok_eq {ε α β : Type} (a : α) (f : α → Except ε β) :
    (Except.ok a >>= f) = f a := rfl

theorem except_bind_error_eq {ε α β : Type} (e : ε) (f : α → Except ε β) :
    ((Except.error e : Except ε α) >>= f) = .error e := rfl

theorem except_bind_ok_inv {ε α β : Type} {x : Except ε α} {f : α → Except ε β} {b : β}
    (h : x >>= f = .ok b) : ∃ a, x = .ok a ∧ f a = .ok b := by
  cases x with
  | ok a => exact ⟨a, rfl, h⟩
  | error e => rw [except_bind_error_eq] at h; exact absurd h (by simp)

theorem except_ok_of_toOption {ε α : Type} (x : Except ε α) (a : α)
    (h : x.toOption = some a) : x = .ok a := by
  cases x with
  | ok b => simpa [Except.toOption] using h
  | error e => simp [Except.toOption] at h

theorem total_cost_go_all_present (prices : String → Option Int) (ms : List (String × Int)) :
    ∀ t : PyNum, (∀ p ∈ ms, (prices p.1).isSome) →
      total_cost_go prices ms t =
        .ok (t.addInt ((ms.map (fun p => p.2 * (prices p.1).getD 0)).sum)) := by
  induction ms with
  | nil => intro t _; simp [total_cost_go, PyNum.addInt]; cases t <;> simp [PyNum.addInt]
  | cons p rest ih =>
    intro t h
    obtain ⟨m, amount⟩ := p
    have hm : (prices m).isSome := h (m, amount) (by simp)
    obtain ⟨pv, hpv⟩ := Option.isSome_iff_exists.mp hm
    simp only [total_cost_go, hpv]
    rw [ih _ (fun q hq => h q (List.mem_cons_of_mem _ hq))]
    simp [hpv, PyNum.addInt_addInt]

theorem total_cost_go_first_missing (prices : String → Option Int) (pre : List (String × Int)) :
    ∀ (t : PyNum) (m : String) (q : Int) (post : List (String × Int)),
      (∀ p ∈ pre, (prices p.1).isSome) → prices m = none →
      total_cost_go prices (pre ++ (m, q) :: post) t = .error ⟨m⟩ := by
  induction pre with
  | nil => intro t m q post _ hm; simp [total_cost_go, hm]
  | cons p rest ih =>
    intro t m q post hpre hm
    obtain ⟨m1, a1⟩ := p
    have h1 : (prices m1).isSome := hpre (m1, a1) (by simp)
    obtain ⟨pv, hpv⟩ := Option.isSome_iff_exists.mp h1
    rw [List.cons_append, total_cost_go, hpv]
    exact ih _ m q post (fun r hr => hpre r (List.mem_cons_of_mem _ hr)) hm

/-! ## Claim theorems -/

/-- C2: for every Repair and price table in which every material of the
repair is priced, `total_cost` returns `repair.cost` plus the sum over
the materials of quantity times unit price. -/
theorem total_cost_eq_cost_plus_sum (r : Repair) (prices : String → Option Int)
    (h : ∀ p ∈ r.materials, (prices p.1).isSome) :
    r.total_cost prices =
      .ok (r.cost.addInt ((r.materials.map (fun p => p.2 * (prices p.1).getD 0)).sum)) :=
  total_cost_go_all_present prices r.materials r.cost h

/-- C2 witness: materials `Wood:5, Stone:3`, cost `50`, prices
`{Wood: 2, Stone: 4}` give `50 + 5*2 + 3*4 = 72`. -/
theorem total_cost_eq_cost_plus_sum_witness :
    (∀ p ∈ wCostRepair.materials, (wPricesFull p.1).isSome) ∧
      wCostRepair.total_cost wPricesFull = .ok (.i 72) :=
  ⟨by decide, by rw [total_cost_eq_cost_plus_sum wCostRepair wPricesFull (by decide)]; rfl⟩

/-- C3: when the repair's materials, in insertion order, are the priced
`pre` followed by an unpriced `m`, `total_cost` fails with a pricing
error naming exactly `m` and returns no value. -/
theorem total_cost_names_first_missing (r : Repair) (prices : String → Option Int)
    (pre post : List (String × Int)) (m : String) (q : Int)
    (hsplit : r.materials = pre ++ (m, q) :: post)
    (hpre : ∀ p ∈ pre, (prices p.1).isSome)
    (hm : prices m = none) :
    r.total_cost prices = .error ⟨m⟩ := by
  rw [Repair.total_cost, hsplit]
  exact total_cost_go_first_missing prices pre r.cost m q post hpre hm

/-- C3 witness: with prices `{Wood: 2}`, the repair with materials
`Wood:5, Stone:3` fails naming `Stone` (and not `Wood`). -/
theorem total_cost_names_first_missing_witness :
    wCostRepair.materials = [("Wood", 5)] ++ ("Stone", 3) :: [] ∧
      (∀ p ∈ [(("Wood" : String), (5 : Int))], (wPricesWoodOnly p.1).isSome) ∧
      wPricesWoodOnly "Stone" = none ∧
      wCostRepair.total_cost wPricesWoodOnly = .error ⟨"Stone"⟩ :=
  ⟨rfl, by decide, rfl,
    total_cost_names_first_missing wCostRepair wPricesWoodOnly [("Wood", 5)] [] "Stone" 3
      rfl (by decide) rfl⟩

theorem summary_lines_loop_eq (prices : String → Option Int) (rs : List Repair) :
    ∀ acc : List String,
      summary_lines_loop prices rs acc = acc ++ rs.map (fun r => render_repair_line r prices) := by
  induction rs with
  | nil => intro acc; simp [summary_lines_loop]
  | cons r rest ih => intro acc; simp [summary_lines_loop, ih]

/-- C4: summarizing a batch produces the header plus exactly one result
string per repair; the string at position `i + 1` depends only on repair
`i`, and when that repair's `total_cost` fails the string is the inline
pricing-error line (so other repairs still get their success lines and
the batch is not aborted). -/
theorem summary_one_line_per_repair (repairs : List Repair) (prices : String → Option Int) :
    (parse_summary_results repairs prices).length = repairs.length + 1 ∧
    ∀ (i : Nat) (r : Repair), repairs[i]? = some r →
      (parse_summary_results repairs prices)[i + 1]? = some (render_repair_line r prices) ∧
      ∀ e : PricingError, r.total_cost prices = .error e →
        render_repair_line r prices =
          repair_line_head r ++ " & Error pricing: " ++ e.material ++
            " is not in the prices dictionary" := by
  constructor
  · simp [parse_summary_results, summary_lines_loop_eq]
  · intro i r hir
    constructor
    · rw [parse_summary_results, summary_lines_loop_eq]
      simp [hir]
    · intro e he
      simp [render_repair_line, he]

/-- C4 witness: in the two-repair batch `wSumRepairs` under prices
`{Wood: 2}`, the second repair fails pricing on `Stone` and its line is
the inline pricing-error line while the batch still has three strings. -/
theorem summary_one_line_per_repair_witness :
    wSumRepairs[1]? = some wCostRepair ∧
      (parse_summary_results wSumRepairs wPricesWoodOnly).length = wSumRepairs.length + 1 ∧
      (parse_summary_results wSumRepairs wPricesWoodOnly)[2]? =
        some (render_repair_line wCostRepair wPricesWoodOnly) ∧
      render_repair_line wCostRepair wPricesWoodOnly =
        repair_line_head wCostRepair ++ " & Error pricing: " ++ "Stone" ++
          " is not in the prices dictionary" :=
  ⟨rfl,
    (summary_one_line_per_repair wSumRepairs wPricesWoodOnly).1,
    ((summary_one_line_per_repair wSumRepairs wPricesWoodOnly).2 1 wCostRepair rfl).1,
    ((summary_one_line_per_repair wSumRepairs wPricesWoodOnly).2 1 wCostRepair rfl).2 ⟨"Stone"⟩
      (by rfl)⟩

theorem mem_intRange (lo hi j : Int) : j ∈ intRange lo hi ↔ lo ≤ j ∧ j < hi := by
  rw [intRange, List.mem_map]
  constructor
  · rintro ⟨k, hk, rfl⟩
    rw [List.mem_range] at hk
    omega
  · rintro ⟨h1, h2⟩
    refine ⟨(j - lo).toNat, ?_, ?_⟩
    · rw [List.mem_range]; omega
    · omega

theorem findStartedGo_ok (lines : List String) (idxs : List Int)
    (hvalid : ∀ j ∈ idxs, 0 ≤ j ∧ j < (lines.length : Int)) :
    findStartedGo lines idxs = .ok (idxs.any (fun j => scan_line_hit (lines.getD j.toNat ""))) := by
  induction idxs with
  | nil => rfl
  | cons j rest ih =>
    have hj := hvalid j (by simp)
    have hget : pyGet lines j = .ok (lines.getD j.toNat "") := by
      rw [pyGet, if_pos hj]
    rw [findStartedGo, hget, except_bind_ok_eq]
    rw [List.any_cons]
    rw [scan_line_hit]
    cases hsplit : split_chat_line (lines.getD j.toNat "") with
    | error e =>
      simp only []
      rw [ih (fun x hx => hvalid x (List.mem_cons_of_mem _ hx))]
      simp
    | ok payload =>
      simp only []
      by_cases hpre : startedMarker.data.isPrefixOf payload.data
      · simp [hpre]
      · simp only [hpre]
        rw [if_neg (by simp [hpre]), ih (fun x hx => hvalid x (List.mem_cons_of_mem _ hx))]
        simp [hpre]

/-- C7: for any boundary pair (whose close index is non-negative) and
any line sequence, the bounded started-scan never fails: it returns a
boolean which is true exactly when some line in the window
`range(cost_index + 1, min(cost_index + 100, len(lines)))` chat-splits
into a payload starting with the repair-in-progress marker, and false
otherwise (scan limit reached or only non-matching lines). -/
theorem started_scan_never_fails (lines : List String) (cost_index : Int)
    (h : 0 ≤ cost_index) :
    ∃ b : Bool, findStarted lines cost_index = .ok b ∧
      (b = true ↔ ∃ j : Int, cost_index + 1 ≤ j ∧
        j < min (cost_index + 100) (lines.length : Int) ∧
        scan_line_hit (lines.getD j.toNat "") = true) := by
  have hmin : min (cost_index + 100) (lines.length : Int) ≤ (lines.length : Int) :=
    min_le_right _ _
  have hvalid : ∀ j ∈ intRange (cost_index + 1) (min (cost_index + 100) (lines.length : Int)),
      0 ≤ j ∧ j < (lines.length : Int) := by
    intro j hj
    rw [mem_intRange] at hj
    omega
  refine ⟨_, findStartedGo_ok lines _ hvalid, ?_⟩
  rw [List.any_eq_true]
  constructor
  · rintro ⟨j, hj, hhit⟩
    rw [mem_intRange] at hj
    exact ⟨j, hj.1, hj.2, hhit⟩
  · rintro ⟨j, h1, h2, hhit⟩
    exact ⟨j, (mem_intRange _ _ _).mpr ⟨h1, h2⟩, hhit⟩

/-- C7 witness: on `wScanLines` with cost index `0` the scan returns
`.ok true`, the marker being found at window index `1`. -/
theorem started_scan_never_fails_witness :
    (0 : Int) ≤ 0 ∧ ∃ b : Bool, findStarted wScanLines 0 = .ok b ∧
      (b = true ↔ ∃ j : Int, 0 + 1 ≤ j ∧
        j < min (0 + 100) (wScanLines.length : Int) ∧
        scan_line_hit (wScanLines.getD j.toNat "") = true) :=
  ⟨by decide, started_scan_never_fails wScanLines 0 (by decide)⟩

/-- C6 counterexample: `dualMarkerLine` contains the event-close marker
and a pending start is set (line 0 is an open line), yet — because the
source's `elif` gives the open marker priority — no boundary pair is
emitted at all, contradicting the claim that every close-marker line
with a pending start emits a pair. -/
theorem boundary_scanner_elif_counterexample :
    containsSub closeMarker.data dualMarkerLine.data = true ∧
      containsSub openMarker.data ("Total damaged blocks: 1" : String).data = true ∧
      parse_file_bounds ["Total damaged blocks: 1", dualMarkerLine] = [] :=
  ⟨by decide, by decide, by decide⟩

/-- C6 (amended): the scanner is total and steps as follows: a line
containing the open marker (even one also containing the close marker)
overwrites the pending start with the current index; a line containing
the close marker but not the open marker emits `(pending, i)` when the
pending start is set — without clearing it, so one pending start can
pair with several close markers (demonstrated by the last conjunct) —
and is skipped when it is not; all other lines are skipped. -/
theorem boundary_scanner_step (rest : List String) (line : String) (s i : Int) :
    (containsSub openMarker.data line.data = true →
      boundaryScan (line :: rest) s i = boundaryScan rest i (i + 1)) ∧
    (containsSub openMarker.data line.data = false →
      containsSub closeMarker.data line.data = true → s ≠ -1 →
      boundaryScan (line :: rest) s i = (s, i) :: boundaryScan rest s (i + 1)) ∧
    (containsSub openMarker.data line.data = false →
      containsSub closeMarker.data line.data = true → s = -1 →
      boundaryScan (line :: rest) s i = boundaryScan rest s (i + 1)) ∧
    (containsSub openMarker.data line.data = false →
      containsSub closeMarker.data line.data = false →
      boundaryScan (line :: rest) s i = boundaryScan rest s (i + 1)) ∧
    parse_file_bounds [openMarker, closeMarker, closeMarker] = [(0, 1), (0, 2)] := by
  refine ⟨?_, ?_, ?_, ?_, by decide⟩
  · intro ho
    rw [boundaryScan, if_pos ho]
  · intro ho hc hs
    rw [boundaryScan, if_neg (by simp [ho]), if_pos hc, if_pos hs]
    rfl
  · intro ho hc hs
    rw [boundaryScan, if_neg (by simp [ho]), if_pos hc, if_neg (by simp [hs])]
    rfl
  · intro ho hc
    rw [boundaryScan, if_neg (by simp [ho]), if_neg (by simp [hc])]

/-- C6 witness: an open-marker line at index 0 overwrites the (unset)
pending start with 0. -/
theorem boundary_scanner_step_witness :
    containsSub openMarker.data openMarker.data = true ∧
      boundaryScan [openMarker] (-1) 0 = boundaryScan [] 0 (0 + 1) :=
  ⟨by decide, (boundary_scanner_step [] openMarker (-1) 0).1 (by decide)⟩

theorem pending_shift {s i : Int} (hs : s = -1 ∨ (0 ≤ s ∧ s < i)) :
    s = -1 ∨ (0 ≤ s ∧ s < i + 1) := by
  rcases hs with h | ⟨h1, h2⟩
  · exact Or.inl h
  · exact Or.inr ⟨h1, by omega⟩

theorem boundaryScan_pairs_closed (lines : List String) :
    ∀ s i : Int, 0 ≤ i → (s = -1 ∨ (0 ≤ s ∧ s < i)) →
      ∀ p ∈ boundaryScan lines s i, 0 ≤ p.1 ∧ p.1 < p.2 ∧ p.2 < i + lines.length := by
  induction lines with
  | nil => intro s i _ _ p hp; simp [boundaryScan] at hp
  | cons line rest ih =>
    intro s i hi hs p hp
    rw [boundaryScan] at hp
    rw [List.length_cons]
    by_cases ho : containsSub openMarker.data line.data
    · rw [if_pos ho] at hp
      have := ih i (i + 1) (by omega) (Or.inr ⟨hi, by omega⟩) p hp
      push_cast at this ⊢
      omega
    · rw [if_neg ho] at hp
      by_cases hc : containsSub closeMarker.data line.data
      · rw [if_pos hc] at hp
        by_cases hs1 : s ≠ -1
        · rw [if_pos hs1] at hp
          rcases List.mem_append.mp hp with hp | hp
          · rcases hs with rfl | ⟨h1, h2⟩
            · exact absurd rfl hs1
            · rcases List.mem_singleton.mp hp with rfl
              refine ⟨h1, h2, ?_⟩
              push_cast
              omega
          · have := ih s (i + 1) (by omega) (pending_shift hs) p hp
            push_cast at this ⊢
            omega
        · rw [if_neg hs1] at hp
          rw [List.nil_append] at hp
          have := ih s (i + 1) (by omega) (pending_shift hs) p hp
          push_cast at this ⊢
          omega
      · rw [if_neg hc] at hp
        have := ih s (i + 1) (by omega) (pending_shift hs) p hp
        push_cast at this ⊢
        omega

/-- C9: every boundary pair `parse_file` decodes a Repair from is
closed — start at least 0, end strictly greater, end within the line
count — and `parse_file` constructs its Repairs from exactly these
pairs. -/
theorem repairs_only_from_closed_bounds (lines : List String) :
    (∀ p ∈ parse_file_bounds lines, 0 ≤ p.1 ∧ p.1 < p.2 ∧ p.2 < (lines.length : Int)) ∧
      parse_file lines = (parse_file_bounds lines).mapM (fun b => Repair.parse lines b.1 b.2) := by
  refine ⟨?_, rfl⟩
  intro p hp
  have := boundaryScan_pairs_closed lines (-1) 0 (le_refl 0) (Or.inl rfl) p hp
  simpa using this

/-- C9 witness: on the two-line log `wBoundLines` the single boundary
pair `(0, 1)` is closed. -/
theorem repairs_only_from_closed_bounds_witness :
    ((0 : Int), (1 : Int)) ∈ parse_file_bounds wBoundLines ∧
      (0 ≤ ((0 : Int), (1 : Int)).1 ∧ ((0 : Int), (1 : Int)).1 < ((0 : Int), (1 : Int)).2 ∧
        ((0 : Int), (1 : Int)).2 < (wBoundLines.length : Int)) :=
  ⟨by decide, (repairs_only_from_closed_bounds wBoundLines).1 ((0 : Int), (1 : Int)) (by decide)⟩

theorem lookupAssoc_cons (kv : String × Int) (rest : List (String × Int)) (k : String) :
    lookupAssoc k (kv :: rest) = if kv.1 == k then some kv.2 else lookupAssoc k rest := rfl

theorem lookupAssoc_map_update_self (d : List (String × Int)) (k : String) (v : Int)
    (hmem : d.any (fun kv => kv.1 == k) = true) :
    lookupAssoc k (d.map (fun kv => if kv.1 == k then (k, v) else kv)) = some v := by
  induction d with
  | nil => simp at hmem
  | cons kv rest ih =>
    rw [List.map_cons, lookupAssoc_cons]
    by_cases h : (kv.1 == k) = true
    · rw [if_pos h, if_pos (show (((k, v) : String × Int).1 == k) = true by simp)]
    · rw [if_neg h, if_neg h]
      apply ih
      rw [List.any_cons, Bool.or_eq_true] at hmem
      rcases hmem with hmem | hmem
      · exact absurd hmem h
      · exact hmem

theorem lookupAssoc_map_update_ne (d : List (String × Int)) (k' k : String) (v : Int)
    (hne : k' ≠ k) :
    lookupAssoc k (d.map (fun kv => if kv.1 == k' then (k', v) else kv)) = lookupAssoc k d := by
  induction d with
  | nil => rfl
  | cons kv rest ih =>
    rw [List.map_cons, lookupAssoc_cons, lookupAssoc_cons]
    by_cases h : (kv.1 == k') = true
    · rw [if_pos h]
      have h2 : (kv.1 == k) = false := by
        have hk : kv.1 = k' := by simpa using h
        simp [hk, hne]
      rw [if_neg (show ¬(((k', v) : String × Int).1 == k) = true by simp [hne]),
        if_neg (by simp [h2]), ih]
    · rw [if_neg h]
      by_cases h2 : (kv.1 == k) = true
      · rw [if_pos h2, if_pos h2]
      · rw [if_neg h2, if_neg h2, ih]

theorem lookupAssoc_append_single (d : List (String × Int)) (k' k : String) (v : Int) :
    lookupAssoc k (d ++ [(k', v)]) =
      match lookupAssoc k d with
      | some w => some w
      | none => if k' = k then some v else none := by
  induction d with
  | nil =>
    by_cases h : k' = k
    · subst h
      show (if (k' == k') = true then some v else none) = if k' = k' then some v else none
      rw [if_pos (by simp : (k' == k') = true), if_pos rfl]
    · show (if (k' == k) = true then some v else none) = if k' = k then some v else none
      rw [if_neg (by simp [h]), if_neg h]
  | cons kv rest ih =>
    rw [List.cons_append, lookupAssoc_cons, lookupAssoc_cons]
    by_cases h : (kv.1 == k) = true
    · rw [if_pos h, if_pos h]
    · rw [if_neg h, if_neg h, ih]

theorem lookupAssoc_eq_none_of_not_mem (d : List (String × Int)) (k : String)
    (h : d.any (fun kv => kv.1 == k) = false) :
    lookupAssoc k d = none := by
  induction d with
  | nil => rfl
  | cons kv rest ih =>
    rw [List.any_cons] at h
    have h1 : (kv.1 == k) = false := by
      cases hb : (kv.1 == k)
      · rfl
      · rw [hb] at h; simp at h
    have h2 : rest.any (fun kv => kv.1 == k) = false := by
      cases hb : rest.any (fun kv => kv.1 == k)
      · rfl
      · rw [hb] at h; simp at h
    rw [lookupAssoc_cons, if_neg (by simp [h1]), ih h2]

theorem lookupAssoc_dictInsert (d : List (String × Int)) (k' k : String) (v : Int) :
    lookupAssoc k (dictInsert d k' v) = if k' = k then some v else lookupAssoc k d := by
  rw [dictInsert]
  by_cases hmem : d.any (fun kv => kv.1 == k') = true
  · rw [if_pos hmem]
    by_cases hk : k' = k
    · subst hk
      rw [if_pos rfl]
      exact lookupAssoc_map_update_self d k' v hmem
    · rw [if_neg hk]
      exact lookupAssoc_map_update_ne d k' k v hk
  · rw [if_neg hmem]
    rw [lookupAssoc_append_single]
    by_cases hk : k' = k
    · subst hk
      have hfalse : d.any (fun kv => kv.1 == k') = false := by
        cases hb : d.any (fun kv => kv.1 == k')
        · rfl
        · exact absurd hb hmem
      rw [lookupAssoc_eq_none_of_not_mem d k' hfalse]
    · cases hl : lookupAssoc k d <;> simp [hk]

theorem lookup_buildMaterials (pairs : List (String × Int)) (k : String) :
    lookupAssoc k (buildMaterials pairs) =
      ((pairs.filter (fun p => p.1 == k)).getLast?).map Prod.snd := by
  induction pairs using List.reverseRecOn with
  | nil => rfl
  | append_singleton xs p ih =>
    rw [buildMaterials, List.foldl_append, List.foldl_cons, List.foldl_nil]
    rw [show List.foldl (fun d q => dictInsert d q.1 q.2) [] xs = buildMaterials xs from rfl]
    rw [lookupAssoc_dictInsert, List.filter_append]
    by_cases hk : p.1 = k
    · rw [if_pos hk]
      have hf : List.filter (fun q => q.1 == k) [p] = [p] := by simp [hk]
      rw [hf, List.getLast?_concat]
      rfl
    · rw [if_neg hk]
      have hf : List.filter (fun q => q.1 == k) [p] = [] := by simp [hk]
      rw [hf, List.append_nil]
      exact ih

/-- C10: when `Repair.parse` succeeds, the decoded materials dict maps
each material name to the quantity of its last occurrence among the
decoded material lines (so a duplicated name keeps only the later
line's quantity, and the decode still succeeds). -/
theorem duplicate_material_last_wins (lines : List String) (s e : Int) (r : Repair)
    (ps : List (String × Int)) (k : String)
    (hr : Repair.parse lines s e = .ok r)
    (hps : decode_materials lines s e = .ok ps) :
    lookupAssoc k r.materials = ((ps.filter (fun p => p.1 == k)).getLast?).map Prod.snd := by
  simp only [Repair.parse] at hr
  obtain ⟨a1, h1, hr⟩ := except_bind_ok_inv hr
  obtain ⟨a2, h2, hr⟩ := except_bind_ok_inv hr
  obtain ⟨a3, h3, hr⟩ := except_bind_ok_inv hr
  obtain ⟨a4, h4, hr⟩ := except_bind_ok_inv hr
  obtain ⟨a5, h5, hr⟩ := except_bind_ok_inv hr
  obtain ⟨a6, h6, hr⟩ := except_bind_ok_inv hr
  obtain ⟨a7, h7, hr⟩ := except_bind_ok_inv hr
  obtain ⟨a8, h8, hr⟩ := except_bind_ok_inv hr
  obtain ⟨mp, hmp, hr⟩ := except_bind_ok_inv hr
  obtain ⟨a10, h10, hr⟩ := except_bind_ok_inv hr
  obtain ⟨a11, h11, hr⟩ := except_bind_ok_inv hr
  obtain ⟨a12, h12, hr⟩ := except_bind_ok_inv hr
  obtain ⟨a13, h13, hr⟩ := except_bind_ok_inv hr
  obtain ⟨a14, h14, hr⟩ := except_bind_ok_inv hr
  obtain ⟨a15, h15, hr⟩ := except_bind_ok_inv hr
  obtain ⟨a16, h16, hr⟩ := except_bind_ok_inv hr
  rw [hps] at hmp
  injection hmp with hmp
  subst hmp
  have hrec : (⟨a2, a5, a8, buildMaterials ps, a12, a15, a16⟩ : Repair) = r :=
    Except.ok.inj hr
  rw [← hrec]
  exact lookup_buildMaterials ps k

/-- C10 witness: the nine-line log `wDupLines` names `Wood` twice
(quantities 5 then 7); the parse succeeds and its dict holds `Wood ↦ 7`,
the last occurrence. -/
theorem duplicate_material_last_wins_witness :
    Repair.parse wDupLines 0 8 = .ok wDupRepair ∧
      decode_materials wDupLines 0 8 = .ok wDupPairs ∧
      lookupAssoc "Wood" wDupRepair.materials =
        ((wDupPairs.filter (fun p => p.1 == "Wood")).getLast?).map Prod.snd := by
  have hr : Repair.parse wDupLines 0 8 = .ok wDupRepair :=
    except_ok_of_toOption _ _ (by decide)
  have hps : decode_materials wDupLines 0 8 = .ok wDupPairs :=
    except_ok_of_toOption _ _ (by decide)
  exact ⟨hr, hps, duplicate_material_last_wins wDupLines 0 8 wDupRepair wDupPairs "Wood" hr hps⟩

theorem pySplitF_ne_nil (sep : List Char) (fuel : Nat) (s : List Char) :
    pySplitF sep fuel s ≠ [] := by
  match fuel, s with
  | fuel, [] => cases fuel <;> simp [pySplitF]
  | 0, c :: rest => simp [pySplitF]
  | fuel + 1, c :: rest =>
    rw [pySplitF]
    split
    · simp
    · simp

theorem pySplitF_length (sep : List Char) : ∀ (fuel : Nat) (s : List Char), s.length ≤ fuel →
    (pySplitF sep fuel s).length = countOccsF sep fuel s + 1 := by
  intro fuel
  induction fuel with
  | zero =>
    intro s hs
    have hnil : s = [] := List.length_eq_zero.mp (Nat.le_zero.mp hs)
    subst hnil
    rfl
  | succ fuel ih =>
    intro s hs
    cases s with
    | nil => rfl
    | cons c rest =>
      rw [List.length_cons] at hs
      rw [pySplitF, countOccsF]
      by_cases h : 0 < sep.length ∧ sep.isPrefixOf (c :: rest)
      · rw [if_pos h, if_pos h]
        have hlen : (List.drop (sep.length - 1) rest).length ≤ fuel := by
          rw [List.length_drop]; omega
        rw [List.length_cons, ih _ hlen]
        omega
      · rw [if_neg h, if_neg h]
        have h2 := ih rest (by omega)
        have hne := pySplitF_ne_nil sep fuel rest
        cases hps : pySplitF sep fuel rest with
        | nil => exact absurd hps hne
        | cons p ps' =>
          rw [hps] at h2
          simp only [List.headD_cons, List.tail_cons, List.length_cons] at h2 ⊢
          omega

theorem pySplitF_join (sep : List Char) : ∀ (fuel : Nat) (s : List Char), s.length ≤ fuel →
    joinSep sep (pySplitF sep fuel s) = s := by
  intro fuel
  induction fuel with
  | zero =>
    intro s hs
    have hnil : s = [] := List.length_eq_zero.mp (Nat.le_zero.mp hs)
    subst hnil
    rfl
  | succ fuel ih =>
    intro s hs
    cases s with
    | nil => rfl
    | cons c rest =>
      rw [List.length_cons] at hs
      rw [pySplitF]
      by_cases h : 0 < sep.length ∧ sep.isPrefixOf (c :: rest)
      · rw [if_pos h]
        have hlen : (List.drop (sep.length - 1) rest).length ≤ fuel := by
          rw [List.length_drop]; omega
        have hne := pySplitF_ne_nil sep fuel (List.drop (sep.length - 1) rest)
        cases hps : pySplitF sep fuel (List.drop (sep.length - 1) rest) with
        | nil => exact absurd hps hne
        | cons p ps' =>
          have hj := ih _ hlen
          rw [hps] at hj
          rw [joinSep, List.nil_append, hj]
          obtain ⟨hpos, hpre⟩ := h
          cases sep with
          | nil => simp at hpos
          | cons d sep' =>
            obtain ⟨t, ht⟩ := List.isPrefixOf_iff_prefix.mp hpre
            rw [List.cons_append] at ht
            injection ht with hc ht
            subst hc
            rw [List.length_cons]
            have hdrop : List.drop (sep'.length + 1 - 1) rest = t := by
              rw [← ht]
              simp [List.drop_left]
            rw [hdrop, List.cons_append, ht]
      · rw [if_neg h]
        have hne := pySplitF_ne_nil sep fuel rest
        cases hps : pySplitF sep fuel rest with
        | nil => exact absurd hps hne
        | cons p ps' =>
          have hj := ih rest (by omega)
          rw [hps] at hj
          simp only [List.headD_cons, List.tail_cons]
          cases ps' with
          | nil => rw [joinSep] at hj ⊢; rw [hj]
          | cons q qs =>
            rw [joinSep] at hj ⊢
            rw [← hj]
            simp [List.cons_append]

theorem pySplit_length_eq (sep s : List Char) :
    (pySplit sep s).length = countOccs sep s + 1 :=
  pySplitF_length sep s.length s (le_refl _)

theorem pySplit_join (sep s : List Char) : joinSep sep (pySplit sep s) = s :=
  pySplitF_join sep s.length s (le_refl _)

/-- C8: the chat-line splitter succeeds — returning the part after the
delimiter — exactly when the delimiter occurs once in the stripped
line; when the delimiter is absent it fails with the distinct too-few
error, when it occurs more than once with the too-many error, and in
both failure cases no value is returned. -/
theorem chat_line_splitter_spec (s sep : String) (_hsep : sep.data ≠ []) :
    (countOccs sep.data (pyStrip s.data) = 0 →
      split_chat_line_at sep s = .error (.tooFew (String.mk (pyStrip s.data)) sep)) ∧
    (countOccs sep.data (pyStrip s.data) = 1 →
      ∃ pre post : List Char,
        pyStrip s.data = pre ++ sep.data ++ post ∧
        split_chat_line_at sep s = .ok (String.mk post)) ∧
    (2 ≤ countOccs sep.data (pyStrip s.data) →
      split_chat_line_at sep s = .error (.tooMany (String.mk (pyStrip s.data)) sep)) := by
  have hlen := pySplit_length_eq sep.data (pyStrip s.data)
  refine ⟨?_, ?_, ?_⟩
  · intro h0
    simp only [split_chat_line_at]
    rw [if_pos (by omega)]
  · intro h1
    have hl2 : (pySplit sep.data (pyStrip s.data)).length = 2 := by omega
    obtain ⟨a, r1, hparts⟩ : ∃ a r1, pySplit sep.data (pyStrip s.data) = a :: r1 := by
      cases hp : pySplit sep.data (pyStrip s.data) with
      | nil => rw [hp] at hl2; simp at hl2
      | cons a r1 => exact ⟨a, r1, rfl⟩
    obtain ⟨b, hb⟩ : ∃ b, r1 = [b] := by
      rw [hparts] at hl2
      cases r1 with
      | nil => simp at hl2
      | cons b r2 =>
        cases r2 with
        | nil => exact ⟨b, rfl⟩
        | cons x xs => simp at hl2
    subst hb
    have hjoin := pySplit_join sep.data (pyStrip s.data)
    rw [hparts, joinSep, joinSep] at hjoin
    refine ⟨a, b, hjoin.symm, ?_⟩
    simp only [split_chat_line_at]
    rw [hparts]
    rw [if_neg (by simp), if_neg (by simp)]
    rfl
  · intro h2
    simp only [split_chat_line_at]
    rw [if_neg (by omega), if_pos (by omega)]

/-- C8 witness: with the default delimiter occurring once, the splitter
returns the payload after it. -/
theorem chat_line_splitter_spec_witness :
    ("[CHAT] " : String).data ≠ [] ∧
      countOccs ("[CHAT] " : String).data (pyStrip ("ab [CHAT] payload" : String).data) = 1 ∧
      ∃ pre post : List Char,
        pyStrip ("ab [CHAT] payload" : String).data = pre ++ ("[CHAT] " : String).data ++ post ∧
        split_chat_line_at "[CHAT] " "ab [CHAT] payload" = .ok (String.mk post) :=
  ⟨by decide, by decide,
    (chat_line_splitter_spec "ab [CHAT] payload" "[CHAT] " (by decide)).2.1 (by decide)⟩

theorem sendInner_decompose (rs : List String) : ∀ m : String,
    rs = (sendInner m rs).2.1 ++ (sendInner m rs).2.2 := by
  induction rs with
  | nil => intro m; rfl
  | cons r rest ih =>
    intro m
    rw [sendInner]
    by_cases hc : m.length < chunkLimit ∧ m.length + r.length < chunkLimit
    · rw [if_pos hc]
      show r :: rest =
        (r :: (sendInner (m ++ r ++ "\n") rest).2.1) ++ (sendInner (m ++ r ++ "\n") rest).2.2
      rw [List.cons_append, ← ih (m ++ r ++ "\n")]
    · rw [if_neg hc]
      rfl

theorem sendInner_msg_le (rs : List String) : ∀ m : String, m.length ≤ chunkLimit →
    (sendInner m rs).1.length ≤ chunkLimit := by
  induction rs with
  | nil => intro m h; exact h
  | cons r rest ih =>
    intro m h
    rw [sendInner]
    by_cases hc : m.length < chunkLimit ∧ m.length + r.length < chunkLimit
    · rw [if_pos hc]
      show (sendInner (m ++ r ++ "\n") rest).1.length ≤ chunkLimit
      apply ih
      rw [String.length_append, String.length_append]
      have hnl : ("\n" : String).length = 1 := rfl
      rw [hnl]
      omega
    · rw [if_neg hc]
      exact h

theorem sendInner_first_consumed (r : String) (rs : List String) (h : r.length < chunkLimit) :
    (sendInner "" (r :: rs)).2.1 ≠ [] := by
  have hc : ("" : String).length < chunkLimit ∧ ("" : String).length + r.length < chunkLimit := by
    have h0 : ("" : String).length = 0 := rfl
    rw [h0]
    constructor
    · decide
    · omega
  rw [sendInner, if_pos hc]
  show r :: (sendInner ("" ++ r ++ "\n") rs).2.1 ≠ []
  simp

theorem sendLoop_sound : ∀ (fuel : Nat) (results : List String)
    (chunks : List (String × List String)),
    sendLoop fuel results = some chunks →
    (∀ c ∈ chunks, c.1.length ≤ chunkLimit) ∧ (chunks.map (fun c => c.2)).flatten = results := by
  intro fuel
  induction fuel with
  | zero =>
    intro results chunks h
    cases results with
    | nil =>
      injection h with h
      subst h
      simp
    | cons r rs => exact absurd h (by rw [sendLoop]; simp)
  | succ fuel ih =>
    intro results chunks h
    cases results with
    | nil =>
      injection h with h
      subst h
      simp
    | cons r rs =>
      rw [sendLoop] at h
      cases hrec : sendLoop fuel (sendInner "" (r :: rs)).2.2 with
      | none =>
        rw [show (sendLoop fuel (sendInner "" (r :: rs)).2.2).map
            (fun chunks => ((sendInner "" (r :: rs)).1, (sendInner "" (r :: rs)).2.1) :: chunks) =
            none by rw [hrec]; rfl] at h
        exact absurd h (by simp)
      | some cs =>
        rw [show (sendLoop fuel (sendInner "" (r :: rs)).2.2).map
            (fun chunks => ((sendInner "" (r :: rs)).1, (sendInner "" (r :: rs)).2.1) :: chunks) =
            some (((sendInner "" (r :: rs)).1, (sendInner "" (r :: rs)).2.1) :: cs)
            by rw [hrec]; rfl] at h
        injection h with h
        subst h
        obtain ⟨hb, hj⟩ := ih _ cs hrec
        constructor
        · intro c hc
          rcases List.mem_cons.mp hc with rfl | hc
          · exact sendInner_msg_le (r :: rs) "" (by decide)
          · exact hb c hc
        · rw [List.map_cons, List.flatten_cons, hj, ← sendInner_decompose (r :: rs) ""]

theorem sendLoop_terminates : ∀ (fuel : Nat) (results : List String),
    results.length ≤ fuel → (∀ r ∈ results, r.length < chunkLimit) →
    ∃ chunks, sendLoop fuel results = some chunks := by
  intro fuel
  induction fuel with
  | zero =>
    intro results hlen _
    have hnil : results = [] := List.length_eq_zero.mp (Nat.le_zero.mp hlen)
    subst hnil
    exact ⟨[], rfl⟩
  | succ fuel ih =>
    intro results hlen hsmall
    cases results with
    | nil => exact ⟨[], rfl⟩
    | cons r rs =>
      have hdec := sendInner_decompose (r :: rs) ""
      have hne : (sendInner "" (r :: rs)).2.1 ≠ [] :=
        sendInner_first_consumed r rs (hsmall r (by simp))
      have hlen2 : (sendInner "" (r :: rs)).2.2.length ≤ fuel := by
        have hl := congrArg List.length hdec
        rw [List.length_cons, List.length_append] at hl
        have h1 : 1 ≤ (sendInner "" (r :: rs)).2.1.length := by
          cases htk : (sendInner "" (r :: rs)).2.1 with
          | nil => exact absurd htk hne
          | cons a as => simp
        rw [List.length_cons] at hlen
        omega
      have hsmall2 : ∀ x ∈ (sendInner "" (r :: rs)).2.2, x.length < chunkLimit := by
        intro x hx
        apply hsmall
        rw [hdec]
        exact List.mem_append_right _ hx
      obtain ⟨cs, hcs⟩ := ih _ hlen2 hsmall2
      refine ⟨((sendInner "" (r :: rs)).1, (sendInner "" (r :: rs)).2.1) :: cs, ?_⟩
      rw [sendLoop]
      show (sendLoop fuel (sendInner "" (r :: rs)).2.2).map
        (fun chunks => ((sendInner "" (r :: rs)).1, (sendInner "" (r :: rs)).2.1) :: chunks) = _
      rw [hcs]
      rfl

theorem sendLoop_stuck_on_big (big : String) (hbig : chunkLimit ≤ big.length)
    (rs : List String) : rendererDiverges (big :: rs) := by
  intro fuel
  induction fuel with
  | zero => rfl
  | succ fuel ih =>
    have hinner : sendInner "" (big :: rs) = ("", [], big :: rs) := by
      rw [sendInner, if_neg]
      rintro ⟨h1, h2⟩
      have h0 : ("" : String).length = 0 := rfl
      rw [h0] at h2
      omega
    rw [sendLoop]
    show (sendLoop fuel (sendInner "" (big :: rs)).2.2).map
      (fun chunks => ((sendInner "" (big :: rs)).1, (sendInner "" (big :: rs)).2.1) :: chunks) =
      none
    rw [hinner]
    show (sendLoop fuel (big :: rs)).map _ = none
    rw [ih]
    rfl

/-- C1 (code-bug evidence): the send loop of `parse_summary` (and the
identical loop of `parse_json`) makes no forward progress once the
front queue item measures at least the 2000-character limit: with a
queue holding a single 2000-character item, no number of outer
iterations empties the queue — the Python loop runs forever, sending an
empty message each iteration, instead of emitting the item in a chunk
of its own. -/
theorem chunked_send_loop_stalls_on_oversized_item : rendererDiverges [oversizedItemA] :=
  sendLoop_stuck_on_big oversizedItemA
    (by
      show chunkLimit ≤ (String.mk (List.replicate 2000 'a')).length
      rw [show (String.mk (List.replicate 2000 'a')).length =
        (List.replicate 2000 'a').length from rfl, List.length_replicate]
      exact le_refl 2000)
    []

/-- C5 counterexample: on a queue holding one item of length 2000 the
send loop never terminates and emits nothing — in particular the
oversized item does not occupy a chunk of its own, contrary to the
claim's exception clause. -/
theorem renderer_oversized_item_never_emitted : rendererDiverges [oversizedItemB] :=
  sendLoop_stuck_on_big oversizedItemB
    (by
      show chunkLimit ≤ (String.mk (List.replicate 2000 'b')).length
      rw [show (String.mk (List.replicate 2000 'b')).length =
        (List.replicate 2000 'b').length from rfl, List.length_replicate]
      exact le_refl 2000)
    []

/-- C5 (amended): whenever the send loop completes (under any fuel),
every emitted chunk has length at most the 2000 limit and
concatenating the items of all chunks in order reproduces the original
sequence; the oversized-item exception of the claim never occurs — on a
queue whose front item reaches the limit the loop diverges instead
(see the counterexample) — and the loop does complete whenever every
item is strictly below the limit. -/
theorem renderer_chunks_bounded_and_order_preserving (results : List String) :
    (∀ (fuel : Nat) (chunks : List (String × List String)),
      sendLoop fuel results = some chunks →
      (∀ c ∈ chunks, c.1.length ≤ chunkLimit) ∧ (chunks.map (fun c => c.2)).flatten = results) ∧
    ((∀ r ∈ results, r.length < chunkLimit) →
      ∃ chunks, sendLoop results.length results = some chunks) :=
  ⟨fun fuel chunks h => sendLoop_sound fuel results chunks h,
    fun hsmall => sendLoop_terminates results.length results (le_refl _) hsmall⟩

/-- C5 witness: the queue `["abc", "defghij"]` is sent as one chunk of
length 12 ≤ 2000 whose items, concatenated, give back the queue. -/
theorem renderer_chunks_bounded_witness :
    sendLoop 2 ["abc", "defghij"] = some [("abc\ndefghij\n", ["abc", "defghij"])] ∧
      (∀ c ∈ [(("abc\ndefghij\n" : String), ["abc", "defghij"])], c.1.length ≤ chunkLimit) ∧
      ([(("abc\ndefghij\n" : String), ["abc", "defghij"])].map (fun c => c.2)).flatten =
        ["abc", "defghij"] := by
  have h : sendLoop 2 ["abc", "defghij"] = some [("abc\ndefghij\n", ["abc", "defghij"])] := by
    decide
  have hsound := (renderer_chunks_bounded_and_order_preserving ["abc", "defghij"]).1 2 _ h
  exact ⟨h, hsound.1, hsound.2⟩

end RepairBot
